import Mathlib

/-!
Verification of the blobstreamx circuit-construction core against its
natural-language specification.

The development is a shallow embedding of the two source files:

* `src/validator.rs`: arithmetized protobuf varint encoding of a 64-bit
  voting power (`marshal_int64_varint`) and the 46-byte Tendermint
  validator record (`marshal_tendermint_validator`).  The circuit works
  over bit wires; we model a byte as a `Nat < 256` and a bit buffer as a
  `List Bool`.  Field-element computations (the Goldilocks-field
  subtraction and equality enumeration used to compare septet indices)
  are modelled exactly, with the field modulus spelled out.

* `src/commitment.rs`: the data-commitment leaf encoding
  (`encode_data_root_tuple`), hash extraction from a fixed-layout
  protobuf buffer (`extract_hash_from_protobuf`), the enabled-flag
  Merkle commitment builder (`get_data_commitment`), the header-chain
  verifier (`prove_header_chain`, a constraint set modelled as a `Prop`)
  and the orchestrator (`prove_data_commitment`).

External gadgets (Merkle root recomputation, root-from-leaves with
enabled flags, the block-height verification gadget) live outside this
repository; they are taken as parameters of the corresponding
definitions, exactly as the specification declares them
"external collaborators, interfaces only".
-/

/-! ## The Goldilocks field modulus

`plonky2` circuits are built over the Goldilocks field; `is_equal` and
`sub` in `marshal_int64_varint` are field operations. -/

def goldilocks : Nat := 2 ^ 64 - 2 ^ 32 + 1

/-! ## Varint marshalling (`src/validator.rs`, `marshal_int64_varint`)

The input `I64Target` is a pair of `u32` limbs decomposed into 64 bits,
little-endian; we represent the combined value as a `Nat` `u` (the wire
value is `u % 2^64`, and only bits `0..63` are ever read).  Septet `i`
is assembled from bits `7*i .. 7*i+6`. -/

def septet (u i : Nat) : Nat := u / 2 ^ (7 * i) % 2 ^ 7

/-- The `last_seen_non_zero_septet_idx` select chain: scan septets
`0..9` in order, remembering the index of the last non-zero one
(`0` when all are zero). -/
def lastNonzeroSeptetIdx (u : Nat) : Nat :=
  (List.range 9).foldl (fun acc i => if septet u i ≠ 0 then i else acc) 0

/-- The continuation-bit test: the circuit computes the field difference
`last_nz - (i+1)` and ORs equality checks against every candidate in
`[0, 9)`. -/
def isLtHelper (lastNz i : Nat) : Bool :=
  (List.range 9).any (fun j => (lastNz + goldilocks - (i + 1)) % goldilocks == j)

/-- Byte `i` of the marshalled varint: septet `i` in the low 7 bits, the
continuation bit in the high bit. -/
def marshalByte (u i : Nat) : Nat :=
  septet u i + (if isLtHelper (lastNonzeroSeptetIdx u) i then 2 ^ 7 else 0)

/-- The 9-byte varint buffer returned by `marshal_int64_varint`. -/
def marshal_int64_varint (u : Nat) : List Nat :=
  (List.range 9).map (marshalByte u)

/-- Varint decoding as described by the spec: each byte contributes its
low 7 bits, and all bytes after the first byte whose high bit is clear
are dropped. -/
def varintDecode : List Nat → Nat
  | [] => 0
  | b :: rest => b % 2 ^ 7 + (if 2 ^ 7 ≤ b then 2 ^ 7 * varintDecode rest else 0)

/-! ## Validator record marshalling
(`src/validator.rs`, `marshal_tendermint_validator`)

The circuit produces a 368-bit buffer by sequential writes of
byte constants (bit `j` of the byte at position `j`, LSB first), the 256
pubkey bits verbatim, and the varint bits. -/

/-- The eight bits of a byte constant, least significant first, as
written into the buffer by `(byte >> j) & 1`. -/
def byteBitsLE (b : Nat) : List Bool :=
  [decide (b % 2 = 1), decide (b / 2 % 2 = 1), decide (b / 4 % 2 = 1),
    decide (b / 8 % 2 = 1), decide (b / 16 % 2 = 1), decide (b / 32 % 2 = 1),
    decide (b / 64 % 2 = 1), decide (b / 128 % 2 = 1)]

/-- A byte list written into a bit buffer, byte by byte, LSB first
within each byte. -/
def bytesToBits (bs : List Nat) : List Bool := bs.flatMap byteBitsLE

/-- Reading a bit buffer back as bytes (8 bits per byte, LSB first);
used to state byte-level facts about the bit-level buffer. -/
def bitsToBytes : List Bool → List Nat
  | b0 :: b1 :: b2 :: b3 :: b4 :: b5 :: b6 :: b7 :: rest =>
      (cond b0 1 0 + 2 * cond b1 1 0 + 4 * cond b2 1 0 + 8 * cond b3 1 0 +
        16 * cond b4 1 0 + 32 * cond b5 1 0 + 64 * cond b6 1 0 +
        128 * cond b7 1 0) :: bitsToBytes rest
  | _ => []

/-- The 368-bit validator record: bytes `10 34 10 32`, the 32 pubkey
bytes (256 bits verbatim), byte `16`, then the 9 varint bytes. -/
def marshal_tendermint_validator (pubkey : List Bool) (vp : Nat) :
    List Bool :=
  bytesToBits [10, 34, 10, 32] ++ pubkey ++ bytesToBits [16] ++
    bytesToBits (marshal_int64_varint vp)

/-! ## Data-commitment tuples (`src/commitment.rs`) -/

/-- Modelled from the spec: the external `U64Variable::encode`
(plonky2x `EvmVariable`) encoding of a 64-bit block height, which the
spec fixes as the 8-byte big-endian byte string of the height. -/
def u64BE (h : Nat) : List Nat :=
  [h / 2 ^ 56 % 256, h / 2 ^ 48 % 256, h / 2 ^ 40 % 256, h / 2 ^ 32 % 256,
    h / 2 ^ 24 % 256, h / 2 ^ 16 % 256, h / 2 ^ 8 % 256, h % 256]

/-- `encode_data_root_tuple`: 24 zero bytes, the big-endian height, the
32-byte data hash. -/
def encode_data_root_tuple (data_hash : List Nat) (height : Nat) :
    List Nat :=
  List.replicate 24 0 ++ u64BE height ++ data_hash

/-- `Vec::resize(n, v)`: truncate to `n` elements when longer, pad with
`v` up to `n` elements when shorter. -/
def vecResize {α : Type} (l : List α) (n : Nat) (v : α) : List α :=
  l.take n ++ List.replicate (n - l.length) v

/-- `get_data_commitment`: encode one tuple per window slot at height
`start_block + i`, resize the leaves to `NB_LEAVES` (padding with the
all-zero tuple), build the enabled flags by resizing an empty vector to
`WINDOW_RANGE` `true`s and then to `NB_LEAVES` with `false`s, and hand
both to the external root-from-leaves-with-enabled-flags gadget
`computeRoot`. -/
def get_data_commitment
    (computeRoot : List (List Nat) → List Bool → List Nat)
    (WINDOW_RANGE NB_LEAVES : Nat) (data_hashes : List (List Nat))
    (start_block : Nat) : List Nat :=
  let leaves := (List.range WINDOW_RANGE).map
    (fun i => encode_data_root_tuple (data_hashes.getD i []) (start_block + i))
  let leaves2 := vecResize leaves NB_LEAVES (List.replicate 64 0)
  let enabled := vecResize (vecResize [] WINDOW_RANGE true) NB_LEAVES false
  computeRoot leaves2 enabled

/-! ## Header chain verification (`src/commitment.rs`) -/

/-- A Merkle inclusion proof wire bundle: the sibling hashes and the
leaf buffer (only these two fields are read by the core). -/
structure MerkleInclusionProof where
  aunts : List (List Nat)
  leaf : List Nat

/-- A header wire bundle: header hash, height inclusion proof, encoded
height byte length, height. -/
structure HeaderVariable where
  header : List Nat
  header_height_proof : MerkleInclusionProof
  height_byte_length : Nat
  height : Nat

/-- The header-chain proof input. -/
structure CelestiaHeaderChainProofInput where
  current_header : HeaderVariable
  trusted_header : HeaderVariable
  data_hash_proofs : List MerkleInclusionProof
  prev_header_proofs : List MerkleInclusionProof

/-- `extract_hash_from_protobuf`: the 32 bytes of the buffer starting
at `START_BYTE`. -/
def extract_hash_from_protobuf (START_BYTE : Nat) (bytes : List Nat) :
    List Nat :=
  (bytes.drop START_BYTE).take 32

/-- The loop body of `prove_header_chain`: walk the two proof lists,
threading the current hash.  Returns the final hash together with the
conjunction of all per-hop constraints: the recomputed root of the
previous-header proof equals the current hash, and the recomputed root
of the data-hash proof equals the hash extracted at offset 2 of the
previous-header proof leaf.  The external Merkle root recomputation
gadgets are the parameters `getRootBID` (over 72-byte block-id leaves)
and `getRootDH` (over 34-byte data-hash leaves). -/
def header_chain_walk (getRootBID getRootDH : MerkleInclusionProof → List Nat) :
    List MerkleInclusionProof → List MerkleInclusionProof → List Nat →
      List Nat × Prop
  | [], _, curr => (curr, True)
  | _ :: _, [], curr => (curr, True)
  | dh :: dhs, ph :: phs, curr =>
    let prevHash := extract_hash_from_protobuf 2 ph.leaf
    let rest := header_chain_walk getRootBID getRootDH dhs phs prevHash
    (rest.1, getRootBID ph = curr ∧ getRootDH dh = prevHash ∧ rest.2)

/-- The hash threaded through the walk before hop `i`: the current
header hash at `i = 0`, and afterwards the hash extracted at offset 2
of the previous-header proof leaf of hop `i - 1`. -/
def chain_hash (php : List MerkleInclusionProof) (curr : List Nat) :
    Nat → List Nat
  | 0 => curr
  | i + 1 => extract_hash_from_protobuf 2 ((php.getD i ⟨[], []⟩).leaf)

/-- The constraint set emitted by `prove_header_chain`, as a
proposition: the wrapping-u64 height difference equals the window
range, both height proofs verify (external gadget `vbh`, applied to
header hash, height-proof aunts, height and encoded byte length), every
hop constraint of the walk holds, and the final hash equals the trusted
header hash. -/
def prove_header_chain (getRootBID getRootDH : MerkleInclusionProof → List Nat)
    (vbh : List Nat → List (List Nat) → Nat → Nat → Prop) (W : Nat)
    (input : CelestiaHeaderChainProofInput) : Prop :=
  (input.current_header.height + 2 ^ 64 - input.trusted_header.height) %
      2 ^ 64 = W ∧
  vbh input.current_header.header
    input.current_header.header_height_proof.aunts
    input.current_header.height input.current_header.height_byte_length ∧
  vbh input.trusted_header.header
    input.trusted_header.header_height_proof.aunts
    input.trusted_header.height input.trusted_header.height_byte_length ∧
  (header_chain_walk getRootBID getRootDH input.data_hash_proofs
    input.prev_header_proofs input.current_header.header).2 ∧
  (header_chain_walk getRootBID getRootDH input.data_hash_proofs
    input.prev_header_proofs input.current_header.header).1 =
    input.trusted_header.header

/-- `prove_data_commitment`: compute the data commitment starting at
the trusted header height and emit the header-chain constraints; the
first component is the returned root, the second the constraint set. -/
def prove_data_commitment
    (computeRoot : List (List Nat) → List Bool → List Nat)
    (getRootBID getRootDH : MerkleInclusionProof → List Nat)
    (vbh : List Nat → List (List Nat) → Nat → Nat → Prop)
    (WINDOW_RANGE NB_LEAVES : Nat)
    (input : CelestiaHeaderChainProofInput)
    (data_hashes : List (List Nat)) : List Nat × Prop :=
  (get_data_commitment computeRoot WINDOW_RANGE NB_LEAVES data_hashes
      input.trusted_header.height,
    prove_header_chain getRootBID getRootDH vbh WINDOW_RANGE input)

/-! ## Concrete inputs used for counterexamples and witnesses -/

/-- A one-hop witness whose u64 heights wrap: `current.height = 0`,
`trusted.height = 2^64 - 1`, so the wrapping difference is `1` while
the mathematical difference is `-(2^64 - 1)`.  The single
previous-header proof carries the trusted header hash at offset 2 of
its 72-byte leaf. -/
def c4Input : CelestiaHeaderChainProofInput :=
  { current_header :=
      { header := List.replicate 32 1, header_height_proof := ⟨[], []⟩,
        height_byte_length := 1, height := 0 },
    trusted_header :=
      { header := List.replicate 32 2, header_height_proof := ⟨[], []⟩,
        height_byte_length := 10, height := 2 ^ 64 - 1 },
    data_hash_proofs := [⟨[], []⟩],
    prev_header_proofs :=
      [⟨[], [0, 0] ++ List.replicate 32 2 ++ List.replicate 38 0⟩] }

/-- A one-hop input with `trusted.height = 5`, used to exhibit the
height at which the first commitment tuple is encoded. -/
def c1Input : CelestiaHeaderChainProofInput :=
  { current_header :=
      { header := List.replicate 32 1, header_height_proof := ⟨[], []⟩,
        height_byte_length := 1, height := 6 },
    trusted_header :=
      { header := List.replicate 32 2, header_height_proof := ⟨[], []⟩,
        height_byte_length := 1, height := 5 },
    data_hash_proofs := [⟨[], []⟩],
    prev_header_proofs := [⟨[], []⟩] }

/-! ### Helper lemmas about the varint encoder -/

lemma septet_lt (u i : Nat) : septet u i < 2 ^ 7 :=
  Nat.mod_lt _ (by norm_num)

lemma range_nine : List.range 9 = [0, 1, 2, 3, 4, 5, 6, 7, 8] := rfl

/-- Closed form of the select chain computing the last non-zero septet
index. -/
lemma lastNz_eq (u : Nat) :
    lastNonzeroSeptetIdx u =
      if septet u 8 ≠ 0 then 8
      else if septet u 7 ≠ 0 then 7
      else if septet u 6 ≠ 0 then 6
      else if septet u 5 ≠ 0 then 5
      else if septet u 4 ≠ 0 then 4
      else if septet u 3 ≠ 0 then 3
      else if septet u 2 ≠ 0 then 2
      else if septet u 1 ≠ 0 then 1
      else 0 := by
  rw [lastNonzeroSeptetIdx, range_nine]
  simp only [List.foldl_cons, List.foldl_nil, ite_self]

lemma lastNz_le (u : Nat) : lastNonzeroSeptetIdx u ≤ 8 := by
  rw [lastNz_eq]
  split_ifs <;> omega

/-- Case analysis on the last non-zero septet index: it is some `c ≤ 8`,
every septet with index above `c` is zero, and (unless `c = 0`) septet
`c` itself is non-zero. -/
lemma lastNz_cases (u : Nat) :
    (lastNonzeroSeptetIdx u = 8 ∧ septet u 8 ≠ 0) ∨
    (lastNonzeroSeptetIdx u = 7 ∧ septet u 8 = 0 ∧ septet u 7 ≠ 0) ∨
    (lastNonzeroSeptetIdx u = 6 ∧ septet u 8 = 0 ∧ septet u 7 = 0 ∧
      septet u 6 ≠ 0) ∨
    (lastNonzeroSeptetIdx u = 5 ∧ septet u 8 = 0 ∧ septet u 7 = 0 ∧
      septet u 6 = 0 ∧ septet u 5 ≠ 0) ∨
    (lastNonzeroSeptetIdx u = 4 ∧ septet u 8 = 0 ∧ septet u 7 = 0 ∧
      septet u 6 = 0 ∧ septet u 5 = 0 ∧ septet u 4 ≠ 0) ∨
    (lastNonzeroSeptetIdx u = 3 ∧ septet u 8 = 0 ∧ septet u 7 = 0 ∧
      septet u 6 = 0 ∧ septet u 5 = 0 ∧ septet u 4 = 0 ∧ septet u 3 ≠ 0) ∨
    (lastNonzeroSeptetIdx u = 2 ∧ septet u 8 = 0 ∧ septet u 7 = 0 ∧
      septet u 6 = 0 ∧ septet u 5 = 0 ∧ septet u 4 = 0 ∧ septet u 3 = 0 ∧
      septet u 2 ≠ 0) ∨
    (lastNonzeroSeptetIdx u = 1 ∧ septet u 8 = 0 ∧ septet u 7 = 0 ∧
      septet u 6 = 0 ∧ septet u 5 = 0 ∧ septet u 4 = 0 ∧ septet u 3 = 0 ∧
      septet u 2 = 0 ∧ septet u 1 ≠ 0) ∨
    (lastNonzeroSeptetIdx u = 0 ∧ septet u 8 = 0 ∧ septet u 7 = 0 ∧
      septet u 6 = 0 ∧ septet u 5 = 0 ∧ septet u 4 = 0 ∧ septet u 3 = 0 ∧
      septet u 2 = 0 ∧ septet u 1 = 0) := by
  rw [lastNz_eq]
  split_ifs with h8 h7 h6 h5 h4 h3 h2 h1 <;> simp_all

/-- The field-arithmetic candidate enumeration computes the strict order
on indices, for indices in the static range. -/
lemma isLtHelper_eq (L i : Nat) (hL : L ≤ 8) (hi : i ≤ 8) :
    isLtHelper L i = decide (i < L) := by
  interval_cases L <;> interval_cases i <;> decide

/-- Byte `i` of the buffer is septet `i` plus the continuation bit,
which is set exactly when `i` is below the last non-zero septet
index. -/
lemma marshalByte_eq (u i : Nat) (hi : i ≤ 8) :
    marshalByte u i =
      septet u i + (if i < lastNonzeroSeptetIdx u then 2 ^ 7 else 0) := by
  rw [marshalByte, isLtHelper_eq _ _ (lastNz_le u) hi]
  simp only [decide_eq_true_eq]

/-- Every septet strictly after the last non-zero one is zero. -/
lemma septet_zero_of_lastNz_lt (u i : Nat) (hi : i ≤ 8)
    (h : lastNonzeroSeptetIdx u < i) : septet u i = 0 := by
  rcases lastNz_cases u with ⟨hc, hx⟩ | ⟨hc, h8, hx⟩ | ⟨hc, h8, h7, hx⟩ |
    ⟨hc, h8, h7, h6, hx⟩ | ⟨hc, h8, h7, h6, h5, hx⟩ |
    ⟨hc, h8, h7, h6, h5, h4, hx⟩ | ⟨hc, h8, h7, h6, h5, h4, h3, hx⟩ |
    ⟨hc, h8, h7, h6, h5, h4, h3, h2, hx⟩ |
    ⟨hc, h8, h7, h6, h5, h4, h3, h2, h1⟩ <;>
    rw [hc] at h <;>
    first
      | omega
      | (interval_cases i <;> assumption)

/-- A value below `2^63` is the base-`2^7` combination of its nine
septets. -/
lemma septet_sum (u : Nat) (hu : u < 2 ^ 63) :
    u = septet u 0 + 2 ^ 7 * septet u 1 + 2 ^ 14 * septet u 2 +
        2 ^ 21 * septet u 3 + 2 ^ 28 * septet u 4 + 2 ^ 35 * septet u 5 +
        2 ^ 42 * septet u 6 + 2 ^ 49 * septet u 7 + 2 ^ 56 * septet u 8 := by
  simp only [septet]
  norm_num
  omega

/-- Decoding stops at a byte whose continuation bit is clear. -/
lemma varintDecode_stop (b : Nat) (hb : b < 2 ^ 7) (rest : List Nat) :
    varintDecode (b :: rest) = b := by
  rw [varintDecode, if_neg (Nat.not_le.mpr hb), Nat.mod_eq_of_lt hb, add_zero]

/-- Decoding steps through a byte whose continuation bit is set. -/
lemma varintDecode_cont (b : Nat) (hb : b < 2 ^ 7) (rest : List Nat) :
    varintDecode ((b + 2 ^ 7) :: rest) = b + 2 ^ 7 * varintDecode rest := by
  rw [varintDecode, if_pos (Nat.le_add_left _ _), Nat.add_mod_right,
    Nat.mod_eq_of_lt hb]

/-! ### Claim theorems about the varint encoder -/

/-- C2: for every `u` in `[0, 2^63)`, decoding the 9-byte output of
`marshal_int64_varint u` — each byte read as 7 LSB-first data bits plus
a high continuation bit, dropping all bytes after the first byte whose
high bit is clear — reproduces `u`. -/
theorem marshal_int64_varint_roundtrip (u : Nat) (hu : u < 2 ^ 63) :
    varintDecode (marshal_int64_varint u) = u := by
  have hsum := septet_sum u hu
  rw [marshal_int64_varint, range_nine]
  simp only [List.map_cons, List.map_nil]
  rw [marshalByte_eq u 0 (by norm_num), marshalByte_eq u 1 (by norm_num),
    marshalByte_eq u 2 (by norm_num), marshalByte_eq u 3 (by norm_num),
    marshalByte_eq u 4 (by norm_num), marshalByte_eq u 5 (by norm_num),
    marshalByte_eq u 6 (by norm_num), marshalByte_eq u 7 (by norm_num),
    marshalByte_eq u 8 (by norm_num)]
  rcases lastNz_cases u with ⟨hc, hx⟩ | ⟨hc, h8, hx⟩ | ⟨hc, h8, h7, hx⟩ |
    ⟨hc, h8, h7, h6, hx⟩ | ⟨hc, h8, h7, h6, h5, hx⟩ |
    ⟨hc, h8, h7, h6, h5, h4, hx⟩ | ⟨hc, h8, h7, h6, h5, h4, h3, hx⟩ |
    ⟨hc, h8, h7, h6, h5, h4, h3, h2, hx⟩ |
    ⟨hc, h8, h7, h6, h5, h4, h3, h2, h1⟩ <;>
    rw [hc] <;>
    simp only [Nat.reduceLT, if_true, if_false, add_zero, varintDecode_cont,
      varintDecode_stop, septet_lt] <;>
    omega

/-- C2 witness: the round trip evaluated at a concrete voting power. -/
theorem marshal_int64_varint_roundtrip_witness :
    varintDecode (marshal_int64_varint 724325643436111) = 724325643436111 :=
  marshal_int64_varint_roundtrip 724325643436111 (by norm_num)

/-- C5: shape of the 9-byte buffer for every input: byte `i` carries
septet `i` of the low 63 bits in its low 7 bits, its high bit is set
exactly when `i` is strictly below the last non-zero septet index,
every byte strictly after that index is zero, and the encoding of `0`
is the all-zero buffer. -/
theorem marshal_int64_varint_shape (u i : Nat) (hi : i < 9) :
    marshalByte u i % 2 ^ 7 = septet u i ∧
    marshalByte u i / 2 ^ 7 =
      (if i < lastNonzeroSeptetIdx u then 1 else 0) ∧
    (lastNonzeroSeptetIdx u < i → marshalByte u i = 0) ∧
    marshal_int64_varint 0 = [0, 0, 0, 0, 0, 0, 0, 0, 0] := by
  have hi8 : i ≤ 8 := by omega
  refine ⟨?_, ?_, ?_, by decide⟩
  · rw [marshalByte_eq u i hi8]
    split_ifs
    · rw [Nat.add_mod_right]
      exact Nat.mod_eq_of_lt (septet_lt u i)
    · rw [add_zero]
      exact Nat.mod_eq_of_lt (septet_lt u i)
  · rw [marshalByte_eq u i hi8]
    split_ifs
    · rw [Nat.add_div_right _ (by norm_num : 0 < 2 ^ 7),
        Nat.div_eq_of_lt (septet_lt u i)]
    · rw [add_zero, Nat.div_eq_of_lt (septet_lt u i)]
  · intro h
    rw [marshalByte_eq u i hi8, if_neg (by omega), add_zero]
    exact septet_zero_of_lastNz_lt u i hi8 h

/-- C5 witness: the shape statement evaluated at a concrete byte of a
concrete input. -/
theorem marshal_int64_varint_shape_witness :
    marshalByte 3 0 % 2 ^ 7 = septet 3 0 ∧
    marshalByte 3 0 / 2 ^ 7 =
      (if 0 < lastNonzeroSeptetIdx 3 then 1 else 0) ∧
    (lastNonzeroSeptetIdx 3 < 0 → marshalByte 3 0 = 0) ∧
    marshal_int64_varint 0 = [0, 0, 0, 0, 0, 0, 0, 0, 0] :=
  marshal_int64_varint_shape 3 0 (by norm_num)

/-- Septets of the input reduced modulo `2^63` agree with septets of
the input itself: only the low 63 bits are ever read. -/
lemma septet_mod_63 (u i : Nat) (hi : i ≤ 8) :
    septet (u % 2 ^ 63) i = septet u i := by
  unfold septet
  have h1 : (2 : Nat) ^ 63 = 2 ^ (7 * i) * 2 ^ (63 - 7 * i) := by
    rw [← pow_add]
    congr 1
    omega
  rw [h1, Nat.mod_mul_right_div_self,
    Nat.mod_mod_of_dvd _ (pow_dvd_pow 2 (by omega))]

/-- C8: `marshal_int64_varint` depends only on the low 63 bits of its
input; two inputs congruent modulo `2^63` (in particular an input and
the same input with bit 63 flipped) produce identical buffers. -/
theorem marshal_int64_varint_low63 (u v : Nat)
    (h : u % 2 ^ 63 = v % 2 ^ 63) :
    marshal_int64_varint u = marshal_int64_varint v := by
  have hsep : ∀ i, i ≤ 8 → septet u i = septet v i := by
    intro i hi
    rw [← septet_mod_63 u i hi, ← septet_mod_63 v i hi, h]
  have hLz : lastNonzeroSeptetIdx u = lastNonzeroSeptetIdx v := by
    rw [lastNz_eq, lastNz_eq, hsep 1 (by norm_num), hsep 2 (by norm_num),
      hsep 3 (by norm_num), hsep 4 (by norm_num), hsep 5 (by norm_num),
      hsep 6 (by norm_num), hsep 7 (by norm_num), hsep 8 (by norm_num)]
  have hmb : ∀ i, i ≤ 8 → marshalByte u i = marshalByte v i := by
    intro i hi
    rw [marshalByte_eq u i hi, marshalByte_eq v i hi, hsep i hi, hLz]
  rw [marshal_int64_varint, marshal_int64_varint, range_nine]
  simp only [List.map_cons, List.map_nil]
  rw [hmb 0 (by norm_num), hmb 1 (by norm_num), hmb 2 (by norm_num),
    hmb 3 (by norm_num), hmb 4 (by norm_num), hmb 5 (by norm_num),
    hmb 6 (by norm_num), hmb 7 (by norm_num), hmb 8 (by norm_num)]

/-- C8 witness: bit 63 is silently dropped — `2^63` encodes exactly
like `0`. -/
theorem marshal_int64_varint_low63_witness :
    marshal_int64_varint (2 ^ 63) = marshal_int64_varint 0 :=
  marshal_int64_varint_low63 (2 ^ 63) 0 (by norm_num)

/-! ### Claim theorems about the data-root tuple encoding -/

/-- C7: the 64-byte tuple is 24 zero bytes, the 8-byte big-endian
height, then the 32-byte hash verbatim; evaluated on the concrete test
vector `hash = [0xff; 32]`, `height = 256`. -/
theorem encode_data_root_tuple_layout (dataHash : List Nat)
    (hlen : dataHash.length = 32) (height : Nat) :
    (encode_data_root_tuple dataHash height).length = 64 ∧
    (encode_data_root_tuple dataHash height).take 24 = List.replicate 24 0 ∧
    ((encode_data_root_tuple dataHash height).drop 24).take 8 =
      u64BE height ∧
    (encode_data_root_tuple dataHash height).drop 32 = dataHash ∧
    encode_data_root_tuple (List.replicate 32 255) 256 =
      List.replicate 24 0 ++ [0, 0, 0, 0, 0, 0, 1, 0] ++
        List.replicate 32 255 := by
  refine ⟨?_, ?_, ?_, ?_, by decide⟩
  · simp [encode_data_root_tuple, u64BE, hlen]
  · rw [encode_data_root_tuple, List.append_assoc,
      List.take_left' (by simp)]
  · rw [encode_data_root_tuple, List.append_assoc,
      List.drop_left' (by simp), List.take_left' (by simp [u64BE])]
  · rw [encode_data_root_tuple, List.drop_left' (by simp [u64BE])]

/-- C7 witness: the layout evaluated at the concrete test vector. -/
theorem encode_data_root_tuple_layout_witness :
    (encode_data_root_tuple (List.replicate 32 255) 256).length = 64 ∧
    (encode_data_root_tuple (List.replicate 32 255) 256).take 24 =
      List.replicate 24 0 ∧
    ((encode_data_root_tuple (List.replicate 32 255) 256).drop 24).take 8 =
      u64BE 256 ∧
    (encode_data_root_tuple (List.replicate 32 255) 256).drop 32 =
      List.replicate 32 255 ∧
    encode_data_root_tuple (List.replicate 32 255) 256 =
      List.replicate 24 0 ++ [0, 0, 0, 0, 0, 0, 1, 0] ++
        List.replicate 32 255 :=
  encode_data_root_tuple_layout (List.replicate 32 255) (by simp) 256

/-! ### Claim theorems about the commitment builder -/

/-- Shared helper: the builder with `R ≤ N` passes the gadget the `R`
encoded tuples padded with `N - R` zero tuples and the matching enabled
flags. -/
lemma get_data_commitment_resize_eq
    (cr : List (List Nat) → List Bool → List Nat) (R N : Nat)
    (hashes : List (List Nat)) (sb : Nat) (hRN : R ≤ N) :
    get_data_commitment cr R N hashes sb =
      cr (((List.range R).map
            (fun i => encode_data_root_tuple (hashes.getD i []) (sb + i))) ++
          List.replicate (N - R) (List.replicate 64 0))
        (List.replicate R true ++ List.replicate (N - R) false) := by
  rw [get_data_commitment]
  simp only [vecResize, List.take_nil, List.nil_append, List.length_nil,
    Nat.sub_zero, List.take_replicate, List.length_replicate,
    List.length_map, List.length_range]
  rw [List.take_of_length_le (by simpa using hRN), Nat.min_eq_right hRN]

/-- C6: with `R = WINDOW_RANGE ≤ N = NB_LEAVES`, the builder hands the
external gadget exactly the `R` encoded tuples (tuple `i` pairing
`hashes[i]` with height `start_block + i`) padded with `N - R` all-zero
tuples, with enabled flags `true` for the first `R` leaves and `false`
for the padding. -/
theorem get_data_commitment_spec
    (cr : List (List Nat) → List Bool → List Nat) (R N : Nat)
    (hashes : List (List Nat)) (sb : Nat) (hRN : R ≤ N) :
    get_data_commitment cr R N hashes sb =
      cr (((List.range R).map
            (fun i => encode_data_root_tuple (hashes.getD i []) (sb + i))) ++
          List.replicate (N - R) (List.replicate 64 0))
        (List.replicate R true ++ List.replicate (N - R) false) :=
  get_data_commitment_resize_eq cr R N hashes sb hRN

/-- C6 witness: the builder evaluated with a concrete root gadget,
`R = 1`, `N = 2`. -/
theorem get_data_commitment_spec_witness :
    get_data_commitment (fun leaves enabled => [leaves.length, enabled.length])
        1 2 [List.replicate 32 9] 7 =
      (fun leaves enabled => [leaves.length, enabled.length])
        (((List.range 1).map
            (fun i => encode_data_root_tuple
              ([List.replicate 32 9].getD i []) (7 + i))) ++
          List.replicate (2 - 1) (List.replicate 64 0))
        (List.replicate 1 true ++ List.replicate (2 - 1) false) :=
  get_data_commitment_spec (fun leaves enabled => [leaves.length, enabled.length])
    1 2 [List.replicate 32 9] 7 (by norm_num)

/-- C10: when `WINDOW_RANGE` exceeds `NB_LEAVES`, `Vec::resize`
truncates: the gadget receives only the first `NB_LEAVES` encoded
tuples, all flagged enabled, and the remaining window hashes are
silently ignored. -/
theorem get_data_commitment_truncates
    (cr : List (List Nat) → List Bool → List Nat) (R N : Nat)
    (hashes : List (List Nat)) (sb : Nat) (hNR : N < R) :
    get_data_commitment cr R N hashes sb =
      cr ((List.range N).map
            (fun i => encode_data_root_tuple (hashes.getD i []) (sb + i)))
        (List.replicate N true) := by
  rw [get_data_commitment]
  simp only [vecResize, List.take_nil, List.nil_append, List.length_nil,
    Nat.sub_zero, List.take_replicate, List.length_replicate,
    List.length_map, List.length_range]
  rw [show N - R = 0 from by omega, ← List.map_take, List.take_range,
    Nat.min_eq_left (by omega)]
  simp

/-- C10 witness: with `R = 2 > N = 1` the second data hash is dropped
and both passed lists have length 1. -/
theorem get_data_commitment_truncates_witness :
    get_data_commitment (fun leaves enabled => [leaves.length, enabled.length])
        2 1 [List.replicate 32 9, List.replicate 32 8] 7 =
      (fun leaves enabled => [leaves.length, enabled.length])
        ((List.range 1).map
          (fun i => encode_data_root_tuple
            ([List.replicate 32 9, List.replicate 32 8].getD i []) (7 + i)))
        (List.replicate 1 true) :=
  get_data_commitment_truncates
    (fun leaves enabled => [leaves.length, enabled.length])
    2 1 [List.replicate 32 9, List.replicate 32 8] 7 (by norm_num)

/-! ### Claim theorems about the validator record -/

/-- Reading back one byte written LSB-first recovers the byte. -/
lemma bitsToBytes_byteBits (b : Nat) (hb : b < 256) (rest : List Bool) :
    bitsToBytes (byteBitsLE b ++ rest) = b :: bitsToBytes rest := by
  have hbit : ∀ x : Nat, (cond (decide (x % 2 = 1)) 1 0 : Nat) = x % 2 := by
    intro x
    rcases Nat.mod_two_eq_zero_or_one x with h | h <;> simp [h]
  simp only [byteBitsLE, List.cons_append, List.nil_append, bitsToBytes]
  rw [hbit b, hbit (b / 2), hbit (b / 4), hbit (b / 8), hbit (b / 16),
    hbit (b / 32), hbit (b / 64), hbit (b / 128)]
  congr 1
  omega

/-- Reading back a whole byte list written LSB-first recovers the
list. -/
lemma bitsToBytes_bytesToBits (bs : List Nat) (h : ∀ b ∈ bs, b < 256)
    (extra : List Bool) :
    bitsToBytes (bytesToBits bs ++ extra) = bs ++ bitsToBytes extra := by
  induction bs with
  | nil => simp [bytesToBits]
  | cons b tl ih =>
    rw [bytesToBits, List.flatMap_cons, List.append_assoc,
      bitsToBytes_byteBits b (h b (by simp)) _, ← bytesToBits,
      ih (fun x hx => h x (by simp [hx]))]
    rfl

lemma bitsToBytes_nil : bitsToBytes [] = [] := rfl

/-- Reading bytes out of an append splits at any multiple-of-8 bit
position. -/
lemma bitsToBytes_append (n : Nat) :
    ∀ (l1 l2 : List Bool), l1.length = 8 * n →
      bitsToBytes (l1 ++ l2) = bitsToBytes l1 ++ bitsToBytes l2 := by
  induction n with
  | zero =>
    intro l1 l2 h
    have h0 : l1 = [] := List.length_eq_zero.mp (by omega)
    subst h0
    simp [bitsToBytes_nil]
  | succ k ih =>
    intro l1 l2 h
    rcases l1 with _ | ⟨b0, l1⟩
    · simp at h
    rcases l1 with _ | ⟨b1, l1⟩
    · simp at h; omega
    rcases l1 with _ | ⟨b2, l1⟩
    · simp at h; omega
    rcases l1 with _ | ⟨b3, l1⟩
    · simp at h; omega
    rcases l1 with _ | ⟨b4, l1⟩
    · simp at h; omega
    rcases l1 with _ | ⟨b5, l1⟩
    · simp at h; omega
    rcases l1 with _ | ⟨b6, l1⟩
    · simp at h; omega
    rcases l1 with _ | ⟨b7, l1⟩
    · simp at h; omega
    simp only [List.cons_append, bitsToBytes]
    congr 1
    exact ih l1 l2 (by simp only [List.length_cons] at h; omega)

/-- Every byte of the varint buffer fits in a byte. -/
lemma marshal_int64_varint_byte_lt (u : Nat) :
    ∀ b ∈ marshal_int64_varint u, b < 256 := by
  intro b hb
  rw [marshal_int64_varint] at hb
  simp only [List.mem_map, List.mem_range] at hb
  obtain ⟨i, hi, rfl⟩ := hb
  have := septet_lt u i
  rw [marshalByte]
  split_ifs <;> omega

lemma marshal_int64_varint_length (u : Nat) :
    (marshal_int64_varint u).length = 9 := by
  simp [marshal_int64_varint]

lemma bytesToBits_length (bs : List Nat) :
    (bytesToBits bs).length = 8 * bs.length := by
  induction bs with
  | nil => simp [bytesToBits]
  | cons b tl ih =>
    rw [bytesToBits, List.flatMap_cons, List.length_append, ← bytesToBits, ih]
    simp [byteBitsLE]
    omega

set_option maxRecDepth 8192 in
/-- C9: the validator record is exactly 368 bits (46 bytes) of pure
concatenation — bytes `10 34 10 32`, the 32 pubkey bytes verbatim, byte
`16`, the 9 varint bytes — and at pubkey `[0; 32]`, voting power
`724325643436111`, the bytes are
`[10,34,10,32, 0×32, 16,207,128,183,165,211,216,164,1]` followed by a
zero byte. -/
theorem marshal_tendermint_validator_layout (pubkey : List Bool)
    (hpk : pubkey.length = 256) (vp : Nat) :
    (marshal_tendermint_validator pubkey vp).length = 368 ∧
    bitsToBytes (marshal_tendermint_validator pubkey vp) =
      [10, 34, 10, 32] ++ bitsToBytes pubkey ++ [16] ++
        marshal_int64_varint vp ∧
    bitsToBytes
        (marshal_tendermint_validator (List.replicate 256 false)
          724325643436111) =
      [10, 34, 10, 32] ++ List.replicate 32 0 ++
        [16, 207, 128, 183, 165, 211, 216, 164, 1, 0] := by
  refine ⟨?_, ?_, by decide⟩
  · simp [marshal_tendermint_validator, List.length_append,
      bytesToBits_length, marshal_int64_varint_length, hpk]
  · rw [marshal_tendermint_validator, List.append_assoc, List.append_assoc,
      bitsToBytes_bytesToBits [10, 34, 10, 32] (by decide) _,
      bitsToBytes_append 32 pubkey _ (by rw [hpk]),
      bitsToBytes_bytesToBits [16] (by decide) _,
      show bytesToBits (marshal_int64_varint vp) =
          bytesToBits (marshal_int64_varint vp) ++ ([] : List Bool) from
        (List.append_nil _).symm,
      bitsToBytes_bytesToBits _ (marshal_int64_varint_byte_lt vp) []]
    simp [bitsToBytes_nil]

set_option maxRecDepth 8192 in
/-- C9 witness: the layout applied at the concrete test input. -/
theorem marshal_tendermint_validator_layout_witness :
    (marshal_tendermint_validator (List.replicate 256 false)
        724325643436111).length = 368 ∧
    bitsToBytes
        (marshal_tendermint_validator (List.replicate 256 false)
          724325643436111) =
      [10, 34, 10, 32] ++ bitsToBytes (List.replicate 256 false) ++ [16] ++
        marshal_int64_varint 724325643436111 ∧
    bitsToBytes
        (marshal_tendermint_validator (List.replicate 256 false)
          724325643436111) =
      [10, 34, 10, 32] ++ List.replicate 32 0 ++
        [16, 207, 128, 183, 165, 211, 216, 164, 1, 0] :=
  marshal_tendermint_validator_layout (List.replicate 256 false) (by simp)
    724325643436111

/-! ### Claim theorems about the header chain -/

lemma chain_hash_zero (php : List MerkleInclusionProof) (curr : List Nat) :
    chain_hash php curr 0 = curr := rfl

lemma chain_hash_one (ph : MerkleInclusionProof)
    (phs : List MerkleInclusionProof) (curr : List Nat) :
    chain_hash (ph :: phs) curr 1 = extract_hash_from_protobuf 2 ph.leaf :=
  rfl

/-- Walking one hop shifts the threaded-hash sequence. -/
lemma chain_hash_shift (ph : MerkleInclusionProof)
    (phs : List MerkleInclusionProof) (curr : List Nat) (i : Nat) :
    chain_hash (ph :: phs) curr (i + 1) =
      chain_hash phs (extract_hash_from_protobuf 2 ph.leaf) i := by
  cases i with
  | zero => rfl
  | succ j => rfl

/-- Splitting a bounded universal at index `0`. -/
lemma forall_lt_succ_shift (P : Nat → Prop) (n : Nat) :
    (∀ i, i < n + 1 → P i) ↔ P 0 ∧ ∀ i, i < n → P (i + 1) := by
  constructor
  · intro h
    exact ⟨h 0 (by omega), fun i hi => h (i + 1) (by omega)⟩
  · rintro ⟨h0, hs⟩ i hi
    cases i with
    | zero => exact h0
    | succ j => exact hs j (by omega)

/-- The recursive walk constraints and final-hash check are equivalent
to the indexed per-hop equalities over the explicit hash sequence. -/
lemma header_chain_walk_iff (g1 g2 : MerkleInclusionProof → List Nat) :
    ∀ (phs dhs : List MerkleInclusionProof) (curr final : List Nat),
      dhs.length = phs.length →
      ((header_chain_walk g1 g2 dhs phs curr).2 ∧
          (header_chain_walk g1 g2 dhs phs curr).1 = final ↔
        (∀ i, i < phs.length →
          g1 (phs.getD i ⟨[], []⟩) = chain_hash phs curr i ∧
          g2 (dhs.getD i ⟨[], []⟩) = chain_hash phs curr (i + 1)) ∧
        chain_hash phs curr phs.length = final) := by
  intro phs
  induction phs with
  | nil =>
    intro dhs curr final hlen
    have h0 : dhs = [] := List.length_eq_zero.mp (by simpa using hlen)
    subst h0
    simp [header_chain_walk, chain_hash_zero]
  | cons ph phs ih =>
    intro dhs curr final hlen
    rcases dhs with _ | ⟨dh, dhs⟩
    · simp at hlen
    have hsub := ih dhs (extract_hash_from_protobuf 2 ph.leaf) final
      (by simpa using hlen)
    simp only [header_chain_walk, List.length_cons]
    rw [forall_lt_succ_shift]
    simp only [List.getD_cons_zero, List.getD_cons_succ, chain_hash_zero,
      chain_hash_one, chain_hash_shift]
    constructor
    · rintro ⟨⟨hA, hB, hX⟩, hY⟩
      obtain ⟨hAll, hFin⟩ := hsub.mp ⟨hX, hY⟩
      exact ⟨⟨⟨hA, hB⟩, hAll⟩, hFin⟩
    · rintro ⟨⟨⟨hA, hB⟩, hAll⟩, hFin⟩
      obtain ⟨hX, hY⟩ := hsub.mpr ⟨hAll, hFin⟩
      exact ⟨⟨hA, hB, hX⟩, hY⟩

/-- C3: the constraint set of `prove_header_chain` is satisfiable iff
every per-hop equality holds — at each hop the recomputed root of the
previous-header proof equals the threaded hash, the recomputed root of
the data-hash proof equals the 32 bytes extracted at offset 2 of that
leaf (the next threaded hash) — and the hash after the last hop equals
the trusted header hash, together with the height constraints; there is
no partial success. -/
theorem prove_header_chain_iff (g1 g2 : MerkleInclusionProof → List Nat)
    (vbh : List Nat → List (List Nat) → Nat → Nat → Prop) (W : Nat)
    (input : CelestiaHeaderChainProofInput)
    (h1 : input.data_hash_proofs.length = W)
    (h2 : input.prev_header_proofs.length = W) :
    prove_header_chain g1 g2 vbh W input ↔
      ((input.current_header.height + 2 ^ 64 -
          input.trusted_header.height) % 2 ^ 64 = W ∧
        vbh input.current_header.header
          input.current_header.header_height_proof.aunts
          input.current_header.height
          input.current_header.height_byte_length ∧
        vbh input.trusted_header.header
          input.trusted_header.header_height_proof.aunts
          input.trusted_header.height
          input.trusted_header.height_byte_length ∧
        (∀ i, i < W →
          g1 (input.prev_header_proofs.getD i ⟨[], []⟩) =
            chain_hash input.prev_header_proofs
              input.current_header.header i ∧
          g2 (input.data_hash_proofs.getD i ⟨[], []⟩) =
            chain_hash input.prev_header_proofs
              input.current_header.header (i + 1)) ∧
        chain_hash input.prev_header_proofs input.current_header.header W =
          input.trusted_header.header) := by
  have hw := header_chain_walk_iff g1 g2 input.prev_header_proofs
    input.data_hash_proofs input.current_header.header
    input.trusted_header.header (h1.trans h2.symm)
  rw [prove_header_chain, ← h2]
  constructor
  · rintro ⟨hH, hv1, hv2, hX, hY⟩
    obtain ⟨hAll, hFin⟩ := hw.mp ⟨hX, hY⟩
    exact ⟨hH, hv1, hv2, hAll, hFin⟩
  · rintro ⟨hH, hv1, hv2, hAll, hFin⟩
    obtain ⟨hX, hY⟩ := hw.mpr ⟨hAll, hFin⟩
    exact ⟨hH, hv1, hv2, hX, hY⟩

/-- C3 witness: the equivalence instantiated at a concrete one-hop
input with concrete gadget functions. -/
theorem prove_header_chain_iff_witness :
    prove_header_chain (fun _ => [1]) (fun _ => [2]) (fun _ _ _ _ => True)
        1 c1Input ↔
      ((c1Input.current_header.height + 2 ^ 64 -
          c1Input.trusted_header.height) % 2 ^ 64 = 1 ∧
        True ∧ True ∧
        (∀ i, i < 1 →
          [1] = chain_hash c1Input.prev_header_proofs
              c1Input.current_header.header i ∧
          [2] = chain_hash c1Input.prev_header_proofs
              c1Input.current_header.header (i + 1)) ∧
        chain_hash c1Input.prev_header_proofs
            c1Input.current_header.header 1 =
          c1Input.trusted_header.header) :=
  prove_header_chain_iff (fun _ => [1]) (fun _ => [2])
    (fun _ _ _ _ => True) 1 c1Input rfl rfl

/-- C4 counterexample: a satisfiable one-hop witness whose
mathematical (non-wrapping) height difference is `-(2^64 - 1) ≠ 1`:
the u64 wire subtraction wraps, so the height constraint — and with
suitable gadget values every other constraint — is satisfied. -/
theorem prove_header_chain_wrap_counterexample :
    ((c4Input.current_header.height : Int) -
        (c4Input.trusted_header.height : Int) ≠ 1) ∧
    prove_header_chain (fun _ => List.replicate 32 1)
      (fun _ => List.replicate 32 2) (fun _ _ _ _ => True) 1 c4Input := by
  refine ⟨by decide, by decide, trivial, trivial, ⟨?_, ?_, trivial⟩, ?_⟩ <;>
    decide

/-- C4 (amended): the added constraints force the wrapping-u64 height
difference to equal the window range: any witness whose wrapping
difference `(current.height - trusted.height) mod 2^64` differs from
`WINDOW_RANGE` is unsatisfiable, regardless of hash linkage. -/
theorem prove_header_chain_height_mismatch_unsat
    (g1 g2 : MerkleInclusionProof → List Nat)
    (vbh : List Nat → List (List Nat) → Nat → Nat → Prop) (W : Nat)
    (input : CelestiaHeaderChainProofInput)
    (hne : (input.current_header.height + 2 ^ 64 -
        input.trusted_header.height) % 2 ^ 64 ≠ W) :
    ¬ prove_header_chain g1 g2 vbh W input :=
  fun h => hne h.1

/-- C4 witness: the wrap-around input is unsatisfiable for window
range 5, where even the wrapping difference is wrong. -/
theorem prove_header_chain_height_mismatch_unsat_witness :
    ¬ prove_header_chain (fun _ => []) (fun _ => [])
        (fun _ _ _ _ => True) 5 c4Input :=
  prove_header_chain_height_mismatch_unsat (fun _ => []) (fun _ => [])
    (fun _ _ _ _ => True) 5 c4Input (by decide)

/-! ### Claim theorems about the orchestrator -/

/-- C1 counterexample: with window size 1 and the root gadget taken to
be the first leaf, the orchestrator commits the tuple at height
`trusted.height` itself — not a height in
`[trusted.height + 1, trusted.height + 1]` as the claim states: the
committed tuple differs from the tuple at `trusted.height + 1`. -/
theorem prove_data_commitment_first_leaf_counterexample :
    (prove_data_commitment (fun leaves _ => leaves.getD 0 []) (fun _ => [])
        (fun _ => []) (fun _ _ _ _ => True) 1 1 c1Input
        [List.replicate 32 7]).1 =
      encode_data_root_tuple (List.replicate 32 7)
        c1Input.trusted_header.height ∧
    (prove_data_commitment (fun leaves _ => leaves.getD 0 []) (fun _ => [])
        (fun _ => []) (fun _ _ _ _ => True) 1 1 c1Input
        [List.replicate 32 7]).1 ≠
      encode_data_root_tuple (List.replicate 32 7)
        (c1Input.trusted_header.height + 1) := by
  constructor <;> decide

/-- C1 (amended): for `WINDOW_RANGE ≤ NB_LEAVES` the root returned by
`prove_data_commitment` is the external gadget applied to exactly the
window tuples — tuple `i` pairing `data_hashes[i]` with block height
`trusted.height + i`, covering `[trusted.height,
trusted.height + WINDOW_RANGE - 1]` — padded with zero tuples flagged
disabled. -/
theorem prove_data_commitment_window
    (cr : List (List Nat) → List Bool → List Nat)
    (g1 g2 : MerkleInclusionProof → List Nat)
    (vbh : List Nat → List (List Nat) → Nat → Nat → Prop) (W N : Nat)
    (input : CelestiaHeaderChainProofInput) (hashes : List (List Nat))
    (hWN : W ≤ N) :
    (prove_data_commitment cr g1 g2 vbh W N input hashes).1 =
      cr (((List.range W).map (fun i =>
            encode_data_root_tuple (hashes.getD i [])
              (input.trusted_header.height + i))) ++
          List.replicate (N - W) (List.replicate 64 0))
        (List.replicate W true ++ List.replicate (N - W) false) :=
  get_data_commitment_resize_eq cr W N hashes input.trusted_header.height hWN

/-- C1 witness: the root equation instantiated at a concrete input. -/
theorem prove_data_commitment_window_witness :
    (prove_data_commitment (fun leaves enabled => [leaves.length, enabled.length])
        (fun _ => []) (fun _ => []) (fun _ _ _ _ => True) 1 1 c1Input
        [List.replicate 32 7]).1 =
      (fun leaves enabled => [leaves.length, enabled.length])
        (((List.range 1).map (fun i =>
            encode_data_root_tuple ([List.replicate 32 7].getD i [])
              (c1Input.trusted_header.height + i))) ++
          List.replicate (1 - 1) (List.replicate 64 0))
        (List.replicate 1 true ++ List.replicate (1 - 1) false) :=
  prove_data_commitment_window
    (fun leaves enabled => [leaves.length, enabled.length]) (fun _ => [])
    (fun _ => []) (fun _ _ _ _ => True) 1 1 c1Input [List.replicate 32 7]
    (by norm_num)
